import Mathlib

/-!
Verification of the Perforce checkout controller of `pew-actions/checkout`.

The development shallowly embeds the TypeScript sources:

* `src/p4-version.ts` — the `PerforceVersion` comparator and the
  `PerforceCommandManager` (version preflight, client-spec fetch/parse,
  client-spec write-back).
* the unnamed controller file (`getSource`) — workspace reconciliation and
  sync: client-name resolution, ownership check, drift detection, rebuild,
  purge-to-none / directory wipe ordering, revert, sync, output emission.

JavaScript specifics are modelled explicitly: `NaN`-valued numeric fields
become `Option Nat` (with `NaN` comparison semantics), `String.replace` with
a string pattern replaces only the first occurrence, `split(' ')` splits on
every single space character, and `if (str)` truthiness is the test for a
non-empty string.  Remote commands and filesystem mutations performed by the
controller are recorded as an ordered trace of `Event`s.
-/

namespace PewCheckout

/-! ### JavaScript string primitives -/

/-- Digits-to-number conversion (`Number("2023") = 2023`). -/
def natOfDigits (cs : List Char) : Nat :=
  cs.foldl (fun n c => 10 * n + (c.toNat - 48)) 0

/-- Core of JavaScript `String.prototype.replace` with a *string* pattern:
only the first occurrence of `pat` is replaced by `rep`. -/
def replaceOnceAux (pat rep : List Char) : List Char → List Char
  | [] => if pat.isEmpty then rep else []
  | c :: rest =>
    if pat.isPrefixOf (c :: rest) then rep ++ (c :: rest).drop pat.length
    else c :: replaceOnceAux pat rep rest

/-- JavaScript `s.replace(pat, rep)` for string patterns (first match only). -/
def jsReplaceOnce (s pat rep : String) : String :=
  (replaceOnceAux pat.toList rep.toList s.toList).asString

/-- JavaScript `s.split(' ')`: split on every single space character;
the empty string yields `[""]`. -/
def splitOnSpace : List Char → List (List Char)
  | [] => [[]]
  | c :: rest =>
    let r := splitOnSpace rest
    if c = ' ' then [] :: r
    else
      match r with
      | [] => [[c]]
      | g :: gs => (c :: g) :: gs

/-- Substring search at the character-list level. -/
def hasSubAux (pat : List Char) : List Char → Bool
  | [] => pat.isEmpty
  | c :: rest => pat.isPrefixOf (c :: rest) || hasSubAux pat rest

/-- Whether `sub` occurs as a contiguous substring of `s`. -/
def containsSubstring (s sub : String) : Bool :=
  hasSubAux sub.toList s.toList

/-! ### Version comparator (`src/p4-version.ts`, class `PerforceVersion`) -/

/-- A parsed Perforce version.  The TypeScript fields are JavaScript numbers
initialised to `NaN`; `none` models `NaN`. -/
structure PerforceVersion where
  major : Option Nat
  minor : Option Nat
deriving DecidableEq

/-- `PerforceVersion.isValid`: `!isNaN(this.major)`. -/
def PerforceVersion.isValid (v : PerforceVersion) : Bool :=
  v.major.isSome

/-- The anchored match `^(\d+)\.(\d+)?$` of the constructor: leading digit
group, a literal dot, then an optional digit group.  Returns the numeric
major and the (possibly absent, i.e. `NaN`) minor. -/
def matchVersionString (s : String) : Option (Nat × Option Nat) :=
  let cs := s.toList
  let d1 := cs.takeWhile Char.isDigit
  match cs.dropWhile Char.isDigit with
  | '.' :: rest2 =>
    if d1 = [] then none
    else if rest2.all Char.isDigit then
      some (natOfDigits d1, if rest2 = [] then none else some (natOfDigits rest2))
    else none
  | _ => none

/-- The `PerforceVersion` constructor: `new PerforceVersion(version)`.
`version` falsy (absent or empty) or a failed regex match leaves both
fields `NaN`. -/
def parseVersion (version : Option String) : PerforceVersion :=
  match version with
  | none => ⟨none, none⟩
  | some s =>
    if s = "" then ⟨none, none⟩
    else
      match matchVersionString s with
      | some (ma, mi) => ⟨some ma, mi⟩
      | none => ⟨none, none⟩

/-- JavaScript `<` on numbers that may be `NaN`: any comparison involving
`NaN` is false. -/
def jsLt : Option Nat → Option Nat → Bool
  | some a, some b => decide (a < b)
  | _, _ => false

/-- JavaScript `===` on numbers that may be `NaN`: `NaN === x` is false. -/
def jsEqNum : Option Nat → Option Nat → Bool
  | some a, some b => a == b
  | _, _ => false

/-- `PerforceVersion.checkMinimum`: throws when `minimum` is invalid,
otherwise the JS comparison cascade. -/
def PerforceVersion.checkMinimum (self minimum : PerforceVersion) :
    Except String Bool :=
  if minimum.isValid = false then
    Except.error "Arg minimum is not a valid version"
  else if jsLt self.major minimum.major then Except.ok false
  else if jsEqNum self.major minimum.major && jsLt self.minor minimum.minor then
    Except.ok false
  else Except.ok true

/-- `PerforceCommandManager.initializeCommandManager`, at the granularity of
the extracted `p4 -V` version group: `versionMatch` is the capture of
`Rev. P4\/\w+\/(\d+\.\d+)\/\d+ ` against the command output (`none` when the
output did not match).  The manager keeps the parsed version and throws
exactly when it is invalid; no minimum-version comparison is performed. -/
def initializeCommandManager (versionMatch : Option String) :
    Except String PerforceVersion :=
  let v := parseVersion versionMatch
  if v.isValid then Except.ok v
  else Except.error "Unable to determine p4 version"

/-! ### Workspace data model (`src/p4-version.ts`, `PerforceMapping` /
`PerforceClient`) -/

/-- One view line: a depot path mapped to a client-namespace path. -/
structure PerforceMapping where
  depot : String
  client : String
deriving DecidableEq

/-- A client workspace definition as fetched by
`PerforceCommandManager.client`. -/
structure PerforceClient where
  host : String
  client : String
  description : String
  options : String
  submitOptions : String
  lineEnd : String
  owner : String
  root : String
  view : List PerforceMapping
deriving DecidableEq

/-! ### View parsing (`PerforceCommandManager.client`) -/

/-- `key.startsWith('View')` — selects the view lines of the tagged
client record (prefix test spelled out over the character list). -/
def isViewKey (k : String) : Bool :=
  "View".toList.isPrefixOf k.toList

/-- JavaScript `view.split(' ')` lifted back to strings. -/
def viewSplit (v : String) : List String :=
  (splitOnSpace v.toList).map List.asString

/-- The loop of `PerforceCommandManager.client` over the keys of the tagged
record (`kvs` lists the record entries in key order): every `View*` value
must split into exactly two space-separated parts, anything else throws. -/
def parseClientViews : List (String × String) → Except String (List PerforceMapping)
  | [] => Except.ok []
  | (k, v) :: rest =>
    if isViewKey k then
      match viewSplit v with
      | [d, c] =>
        match parseClientViews rest with
        | Except.ok ms => Except.ok (⟨d, c⟩ :: ms)
        | Except.error e => Except.error e
      | _ => Except.error ("Invalid client view " ++ v)
    else parseClientViews rest

/-! ### Reconciliation & sync controller (`getSource`) -/

/-- The settings consumed by `getSource` (`IPerforceSourceSettings`). -/
structure PerforceSettings where
  repositoryName : String
  repositoryPath : String
  authToken : String
  ref : String
  clientTemplate : String
  useClientTemplate : Bool
deriving DecidableEq

/-- The observable environment of one run: the machine hostname, whether
`p4 login -s` succeeds, the fetched template definition, and the existing
machine definition when `clientExists` reports one. -/
structure World where
  hostname : String
  loginOk : Bool
  template : PerforceClient
  existing : Option PerforceClient
deriving DecidableEq

/-- Remote commands and filesystem mutations issued by `getSource`, in
program order. -/
inductive Event where
  | editClient (c : PerforceClient)
  | syncK (spec : String)
  | rmRF (path : String)
  | mkdirP (path : String)
  | revert (spec : String)
  | sync (spec : String)
  | setOutput (name value : String)
deriving DecidableEq

/-- `mapping.client.replace(`//{template}/`, `//{clientName}/`)`:
first-occurrence substitution of the template namespace by the resolved
client namespace. -/
def substituteClientPath (tname cname path : String) : String :=
  jsReplaceOnce path ("//" ++ tname ++ "/") ("//" ++ cname ++ "/")

/-- The resolved client name: the template name itself under the reuse
policy, else `` `${template}_${os.hostname().replace('-', '_')}` `` (only
the first hyphen of the hostname is replaced). -/
def resolveClientName (useTemplate : Bool) (tname hostname : String) : String :=
  if useTemplate then tname
  else tname ++ "_" ++ jsReplaceOnce hostname "-" "_"

/-- JavaScript `Map.set`: update the binding in place when the key exists,
append it otherwise. -/
def assocSet : List (String × String) → String → String → List (String × String)
  | [], k, v => [(k, v)]
  | (k', v') :: rest, k, v =>
    if k' = k then (k, v) :: rest else (k', v') :: assocSet rest k v

/-- JavaScript `Map.get` (`none` for `undefined`). -/
def assocGet : List (String × String) → String → Option String
  | [], _ => none
  | (k', v') :: rest, k => if k' = k then some v' else assocGet rest k

/-- JavaScript `Map.delete` (removes the binding of `k`, if any). -/
def assocErase : List (String × String) → String → List (String × String)
  | [], _ => []
  | (k', v') :: rest, k => if k' = k then rest else (k', v') :: assocErase rest k

/-- The `templateMappings` map of `getSource`: the template view keyed by
depot path, values namespace-substituted to the resolved client name. -/
def buildTemplateMap (tname cname : String) (tpl : List PerforceMapping) :
    List (String × String) :=
  tpl.foldl (fun m mp => assocSet m mp.depot (substituteClientPath tname cname mp.client)) []

/-- The loop of `getSource` over the existing client's view: flags a rebuild
for a depot path absent from the template map or mapped to a different
client path, deleting each visited depot path from the map.  Returns the
rebuild flag contributed by this loop together with the leftover map. -/
def checkExisting : List (String × String) → List PerforceMapping →
    Bool × List (String × String)
  | m, [] => (false, m)
  | m, mp :: rest =>
    let bad : Bool :=
      match assocGet m mp.depot with
      | none => true
      | some c => decide (c ≠ mp.client)
    let r := checkExisting (assocErase m mp.depot) rest
    (bad || r.1, r.2)

/-- The complete `rebuildClient` flag of `getSource`: mapping drift, missing
mappings (nonempty leftover map), host mismatch, or root mismatch. -/
def rebuildFlag (tplView : List PerforceMapping) (ex : PerforceClient)
    (tname cname hostname rootPath : String) : Bool :=
  let r := checkExisting (buildTemplateMap tname cname tplView) ex.view
  r.1 || !r.2.isEmpty || decide (ex.host ≠ hostname) || decide (ex.root ≠ rootPath)

/-- The freshly substituted copy of the template view used for both rebuild
and new-client creation. -/
def substitutedView (tname cname : String) (tpl : List PerforceMapping) :
    List PerforceMapping :=
  tpl.map (fun mp => ⟨mp.depot, substituteClientPath tname cname mp.client⟩)

/-- The client written back on rebuild: the existing definition with `host`,
`root` and `view` overwritten (all other fields kept). -/
def rebuiltClient (ex : PerforceClient) (tplView : List PerforceMapping)
    (tname cname hostname rootPath : String) : PerforceClient :=
  { ex with host := hostname, root := rootPath,
            view := substitutedView tname cname tplView }

/-- The brand-new client created when no definition exists: the template
with name, description, host, root and view rewritten. -/
def newClient (tpl : PerforceClient) (tname cname hostname rootPath : String) :
    PerforceClient :=
  { tpl with client := cname,
             description := "Build template instance for " ++ hostname,
             host := hostname, root := rootPath,
             view := substitutedView tname cname tpl.view }

/-- The tail of every successful run: revert, sync to the requested ref,
emit the `commit` output. -/
def tailEvents (cname ref : String) : List Event :=
  [Event.revert ("//" ++ cname ++ "/..."),
   Event.sync ("//" ++ cname ++ "/..." ++ ref),
   Event.setOutput "commit" ref]

/-- The purge block guarded by `needSyncNone`: sync-to-none, then remove and
recreate the checkout directory. -/
def purgeEvents (cname rootPath : String) : List Event :=
  [Event.syncK ("//" ++ cname ++ "/...#none"),
   Event.rmRF rootPath,
   Event.mkdirP rootPath]

/-- The reconciliation branch of `getSource` on `clientExists`: ownership
check, drift detection and rebuild for an existing definition, creation for
an absent one.  `needSyncNone` is exactly the rebuild flag (it is never set
on the new-client path), so the purge block runs precisely after a
rebuild. -/
def reconcileEvents (s : PerforceSettings) (hostname cname : String)
    (template : PerforceClient) :
    Option PerforceClient → List Event × Except String String
  | some ex =>
    if ex.owner ≠ "" ∧ ex.owner ≠ s.authToken then
      ([], Except.error
        ("Client owner does not match, aborting. " ++ ex.owner ++ " != " ++ s.authToken))
    else if rebuildFlag template.view ex s.clientTemplate cname hostname s.repositoryPath then
      (Event.editClient
          (rebuiltClient ex template.view s.clientTemplate cname hostname s.repositoryPath)
        :: (purgeEvents cname s.repositoryPath ++ tailEvents cname s.ref),
       Except.ok s.ref)
    else (tailEvents cname s.ref, Except.ok s.ref)
  | none =>
    (Event.editClient (newClient template s.clientTemplate cname hostname s.repositoryPath)
      :: tailEvents cname s.ref,
     Except.ok s.ref)

/-- `getSource`: the whole run, as the ordered trace of issued commands and
the operation result (the emitted revision marker, or the thrown error). -/
def getSource (s : PerforceSettings) (w : World) :
    List Event × Except String String :=
  if w.loginOk = false then
    ([], Except.error "Workflow must login to perforce before running checkout")
  else
    reconcileEvents s w.hostname
      (resolveClientName s.useClientTemplate s.clientTemplate w.hostname)
      w.template w.existing

/-- The drift conditions exactly as the specification words them (an extra
depot path, a mismatched substituted client path, a missing depot path
relative to the namespace-normalized template, a host mismatch, a root
mismatch), phrased over the keyed template map. -/
def driftConditions (tplView : List PerforceMapping) (ex : PerforceClient)
    (tname cname hostname rootPath : String) : Prop :=
  let tm := buildTemplateMap tname cname tplView
  (∃ mp ∈ ex.view, assocGet tm mp.depot = none) ∨
  (∃ mp ∈ ex.view, ∃ c, assocGet tm mp.depot = some c ∧ c ≠ mp.client) ∨
  (∃ kv ∈ tm, kv.1 ∉ ex.view.map PerforceMapping.depot) ∨
  ex.host ≠ hostname ∨ ex.root ≠ rootPath

/-- Position of the first occurrence of an event in a trace (length of the
trace when absent). -/
def idxOf (e : Event) : List Event → Nat
  | [] => 0
  | x :: xs => if x = e then 0 else idxOf e xs + 1

/-- The claim's reading of host normalization: *every* hyphen of the
hostname collapsed to an underscore (the source replaces only the
first). -/
def collapseHyphens (s : String) : String :=
  (s.toList.map (fun c => if c = '-' then '_' else c)).asString

/-- The claim's reading of name resolution, built on `collapseHyphens`. -/
def resolveClientNameSpec (useTemplate : Bool) (tname hostname : String) : String :=
  if useTemplate then tname
  else tname ++ "_" ++ collapseHyphens hostname

/-- Extraction of a well-formed view line's two components (claim side;
the fallback is never reached on well-formed lines). -/
def mappingOfLine (v : String) : PerforceMapping :=
  match viewSplit v with
  | [d, c] => ⟨d, c⟩
  | _ => ⟨v, ""⟩

/-! ### Concrete fixtures used by witnesses and counterexamples -/

/-- A sample template definition with two view lines. -/
def sampleTpl : PerforceClient :=
  ⟨"tplhost", "T", "tpl", "o", "so", "le", "bob", "/tpl",
   [⟨"//depot/a", "//T/a"⟩, ⟨"//depot/b", "//T/b"⟩]⟩

/-- A machine definition agreeing with `sampleTpl` under client name
`T_h1` (view reordered, which is harmless). -/
def sampleExisting : PerforceClient :=
  ⟨"h1", "T_h1", "d", "o", "so", "le", "bob", "/work",
   [⟨"//depot/b", "//T_h1/b"⟩, ⟨"//depot/a", "//T_h1/a"⟩]⟩

/-- Sample run settings: host-qualified naming, token `bob`, ref `@123`. -/
def sampleSettings : PerforceSettings :=
  ⟨"ssl:p4:1666", "/work", "bob", "@123", "T", false⟩

/-- World with a drifted machine definition (host mismatch). -/
def worldDrift : World :=
  ⟨"h1", true, sampleTpl, some { sampleExisting with host := "other" }⟩

/-- World with a matching machine definition. -/
def worldMatch : World :=
  ⟨"h1", true, sampleTpl, some sampleExisting⟩

/-- World with no machine definition yet. -/
def worldNew : World :=
  ⟨"h1", true, sampleTpl, none⟩

/-- World whose machine definition has an empty owner field. -/
def worldOwnerBlank : World :=
  ⟨"h1", true, sampleTpl, some { sampleExisting with owner := "" }⟩

/-- World whose machine definition belongs to `alice`. -/
def worldOwnerAlice : World :=
  ⟨"h1", true, sampleTpl, some { sampleExisting with owner := "alice" }⟩

/-! ### Supporting lemmas -/

theorem takeWhile_dropWhile_all_append {p : Char → Bool} :
    ∀ (d : List Char) (x : Char) (r : List Char),
    (∀ ch ∈ d, p ch = true) → p x = false →
    (d ++ x :: r).takeWhile p = d ∧ (d ++ x :: r).dropWhile p = x :: r := by
  intro d
  induction d with
  | nil =>
    intro x r _ hx
    simp [List.takeWhile, List.dropWhile, hx]
  | cons c cs ih =>
    intro x r hall hx
    have hc : p c = true := hall c (List.mem_cons_self c cs)
    have hrest : ∀ ch ∈ cs, p ch = true := fun ch hm => hall ch (List.mem_cons_of_mem c hm)
    have := ih x r hrest hx
    simp [List.takeWhile, List.dropWhile, hc, this.1, this.2]

/-- C6 supporting: validity of the parsed version coincides with the shape
`<digits> '.' <digits possibly empty>` of the input string. -/
theorem parseVersion_isValid_iff (s : String) :
    (parseVersion (some s)).isValid = true ↔
      ∃ d r, s.toList = d ++ '.' :: r ∧ d ≠ [] ∧
        (∀ ch ∈ d, ch.isDigit = true) ∧ (∀ ch ∈ r, ch.isDigit = true) := by
  constructor
  · intro h
    by_cases hs0 : s = ""
    · rw [hs0] at h
      simp [parseVersion, PerforceVersion.isValid] at h
    · have hmain : ∃ ma mi, matchVersionString s = some (ma, mi) := by
        simp only [parseVersion, if_neg hs0] at h
        rcases hm : matchVersionString s with _ | ⟨ma, mi⟩
        · rw [hm] at h
          simp [PerforceVersion.isValid] at h
        · exact ⟨ma, mi, rfl⟩
      obtain ⟨ma, mi, hm⟩ := hmain
      simp only [matchVersionString] at hm
      split at hm
      · rename_i rest2 hdrop
        split at hm
        · exact absurd hm (by simp)
        · rename_i hd1
          refine ⟨s.toList.takeWhile Char.isDigit, rest2, ?_, hd1, ?_, ?_⟩
          · conv_lhs => rw [← List.takeWhile_append_dropWhile (p := Char.isDigit) (l := s.toList)]
            rw [hdrop]
          · intro ch hmem
            exact List.mem_takeWhile_imp hmem
          · intro ch hmem
            split at hm
            · rename_i hall2
              exact (List.all_eq_true.mp hall2) ch hmem
            · exact absurd hm (by simp)
      · exact absurd hm (by simp)
  · rintro ⟨d, r, hs, hd, hall, hallr⟩
    have hempty : s ≠ "" := by
      intro h0
      rw [h0] at hs
      simp at hs
    have hdot : ('.' : Char).isDigit = false := by decide
    have htw := takeWhile_dropWhile_all_append (p := Char.isDigit) d '.' r hall hdot
    simp only [parseVersion, if_neg hempty, matchVersionString]
    rw [hs, htw.1, htw.2]
    simp [hd, List.all_eq_true.mpr hallr, PerforceVersion.isValid]

/-! ### Claim theorems -/

/-- C1: `initializeCommandManager` accepts every parseable version string —
here `10.1`, far below any plausible minimum — and fails only when the
`p4 -V` output yields no version match.  No minimum-version comparison is
performed (the `checkMinimum` comparator is never invoked during
initialization), contradicting the claimed below-minimum failure. -/
theorem initialize_accepts_any_parseable_version :
    initializeCommandManager (some "10.1") = Except.ok ⟨some 10, some 1⟩
    ∧ initializeCommandManager none
        = Except.error "Unable to determine p4 version" := by
  constructor <;> rfl

/-- C6 counterexample: the input `"2023."` has the minor digit group absent
(yet the dot present), and the constructor yields a version with major 2023,
minor unset, that `isValid` reports as *valid* — refuting the claim that an
absent minor group yields an invalid/unset version. -/
theorem version_minor_absent_is_valid_cex :
    parseVersion (some "2023.") = ⟨some 2023, none⟩
    ∧ (parseVersion (some "2023.")).isValid = true := by
  constructor <;> rfl

/-- C6 (amended): parsing accepts exactly the strings
`<digits>.<digits-or-empty>`; when the minor group is absent (dot present,
no digits after) the result is a *valid* version with major set and minor
unset; `"2023"` (no dot), `""` and an absent string yield an invalid
version; `"2023.2"` yields major 2023, minor 2; parsing is total and never
raises an error. -/
theorem version_parse_characterisation :
    parseVersion (some "2023.2") = ⟨some 2023, some 2⟩
    ∧ parseVersion (some "2023") = ⟨none, none⟩
    ∧ parseVersion (some "") = ⟨none, none⟩
    ∧ parseVersion none = ⟨none, none⟩
    ∧ parseVersion (some "2023.") = ⟨some 2023, none⟩
    ∧ (∀ s : String, (parseVersion (some s)).isValid = true ↔
        ∃ d r, s.toList = d ++ '.' :: r ∧ d ≠ [] ∧
          (∀ ch ∈ d, ch.isDigit = true) ∧ (∀ ch ∈ r, ch.isDigit = true)) := by
  refine ⟨rfl, rfl, rfl, rfl, rfl, parseVersion_isValid_iff⟩

/-- C7: for fully parsed versions, `checkMinimum` is true exactly when the
major exceeds the minimum's, or the majors are equal and the minor reaches
the minimum's; an invalid minimum (unset major) is an error for every
`self`; an invalid `self` against a valid minimum falls through the
`NaN` comparisons to `true`. -/
theorem checkMinimum_characterisation :
    (∀ aM am bM bm : Nat,
      PerforceVersion.checkMinimum ⟨some aM, some am⟩ ⟨some bM, some bm⟩
        = Except.ok (decide (bM < aM ∨ (aM = bM ∧ bm ≤ am))))
    ∧ (∀ (v : PerforceVersion) (mm : Option Nat),
      PerforceVersion.checkMinimum v ⟨none, mm⟩
        = Except.error "Arg minimum is not a valid version")
    ∧ (∀ (sm mm : Option Nat) (bM : Nat),
      PerforceVersion.checkMinimum ⟨none, sm⟩ ⟨some bM, mm⟩ = Except.ok true) := by
  refine ⟨?_, fun v mm => rfl, fun sm mm bM => rfl⟩
  intro aM am bM bm
  simp only [PerforceVersion.checkMinimum, PerforceVersion.isValid, jsLt, jsEqNum]
  rcases Nat.lt_trichotomy aM bM with h | h | h
  · have hlt : decide (aM < bM) = true := by simp [h]
    have hd : decide (bM < aM ∨ (aM = bM ∧ bm ≤ am)) = false := by
      simp only [decide_eq_false_iff_not]
      omega
    simp [hlt, hd]
  · have hlt : decide (aM < bM) = false := by simp; omega
    have heq : (aM == bM) = true := by simp [h]
    by_cases h3 : bm ≤ am
    · have hm : decide (am < bm) = false := by simp; omega
      have hd : decide (bM < aM ∨ (aM = bM ∧ bm ≤ am)) = true := by simp [h, h3]
      simp [hlt, heq, hm, hd]
    · have hm : decide (am < bm) = true := by simp; omega
      have hd : decide (bM < aM ∨ (aM = bM ∧ bm ≤ am)) = false := by
        simp only [decide_eq_false_iff_not]
        omega
      simp [hlt, heq, hm, hd]
  · have hlt : decide (aM < bM) = false := by simp; omega
    have heq : (aM == bM) = false := by simp; omega
    have hd : decide (bM < aM ∨ (aM = bM ∧ bm ≤ am)) = true := by simp [h]
    simp [hlt, heq, hd]

theorem replaceOnceAux_no_match (p : Char) (rep : List Char) :
    ∀ l : List Char, p ∉ l → replaceOnceAux [p] rep l = l := by
  intro l
  induction l with
  | nil => intro _; rfl
  | cons x xs ih =>
    intro hm
    have hx : (p == x) = false := by
      simp only [beq_eq_false_iff_ne, ne_eq]
      intro h
      exact hm (h ▸ List.mem_cons_self x xs)
    have hxs : p ∉ xs := fun h => hm (List.mem_cons_of_mem x h)
    simp [replaceOnceAux, List.isPrefixOf, hx, ih hxs]

theorem replaceOnceAux_single_at (p : Char) (rep : List Char) :
    ∀ (a b : List Char), p ∉ a →
      replaceOnceAux [p] rep (a ++ p :: b) = a ++ rep ++ b := by
  intro a
  induction a with
  | nil =>
    intro b _
    simp [replaceOnceAux, List.isPrefixOf]
  | cons x xs ih =>
    intro b hm
    have hx : (p == x) = false := by
      simp only [beq_eq_false_iff_ne, ne_eq]
      intro h
      exact hm (h ▸ List.mem_cons_self x xs)
    have hxs : p ∉ xs := fun h => hm (List.mem_cons_of_mem x h)
    simp [replaceOnceAux, List.isPrefixOf, hx, ih b hxs]

theorem string_data_append (a b : String) : (a ++ b).data = a.data ++ b.data := rfl

theorem asString_data_self (s : String) : List.asString s.data = s := rfl

theorem string_eq_of_data {a b : String} (h : a.data = b.data) : a = b := by
  cases a
  cases b
  exact congrArg String.mk h

/-- C5 counterexample: for host `a-b-c` the source collapses only the first
hyphen (`T_a_b-c`), while the claim's every-hyphen normalization gives
`T_a_b_c`. -/
theorem resolve_name_first_hyphen_only_cex :
    resolveClientName false "T" "a-b-c" = "T_a_b-c"
    ∧ resolveClientNameSpec false "T" "a-b-c" = "T_a_b_c"
    ∧ resolveClientName false "T" "a-b-c" ≠ resolveClientNameSpec false "T" "a-b-c" := by
  refine ⟨rfl, rfl, by decide⟩

/-- C5 (amended): under the reuse policy the resolved name is the template
name; under the host-qualified policy it is the template name, an
underscore, and the hostname with only its *first* hyphen replaced by an
underscore (later hyphens are kept; a hyphen-free hostname is unchanged,
so `runner-1` still normalizes to `runner_1`). -/
theorem resolve_name_characterisation :
    (∀ tname hostname : String, resolveClientName true tname hostname = tname)
    ∧ (∀ tname hostname : String, '-' ∉ hostname.toList →
        resolveClientName false tname hostname = tname ++ "_" ++ hostname)
    ∧ (∀ tname a b : String, '-' ∉ a.toList →
        resolveClientName false tname (a ++ "-" ++ b)
          = tname ++ "_" ++ a ++ "_" ++ b) := by
  refine ⟨fun tname hostname => rfl, ?_, ?_⟩
  · intro tname hostname hm
    apply string_eq_of_data
    simp only [resolveClientName, if_neg Bool.false_ne_true, jsReplaceOnce]
    rw [show ("-" : String).toList = ['-'] from rfl]
    rw [replaceOnceAux_no_match '-' _ hostname.toList hm]
    simp [string_data_append, List.asString, String.toList]
  · intro tname a b hm
    simp only [resolveClientName, if_neg Bool.false_ne_true, jsReplaceOnce]
    rw [show ("-" : String).toList = ['-'] from rfl]
    have hdata : (a ++ "-" ++ b).toList = a.data ++ '-' :: b.data := by
      show (a ++ "-" ++ b).data = a.data ++ '-' :: b.data
      rw [string_data_append, string_data_append]
      simp
    rw [hdata, replaceOnceAux_single_at '-' _ a.data b.data hm]
    apply string_eq_of_data
    simp [string_data_append, List.asString]

/-- C5 witness: the amended statement at template `T`, host `runner-1`. -/
theorem resolve_name_characterisation_witness :
    resolveClientName false "T" ("runner" ++ "-" ++ "1")
      = "T" ++ "_" ++ "runner" ++ "_" ++ "1" :=
  resolve_name_characterisation.2.2 "T" "runner" "1" (by decide)

theorem splitOnSpace_no_space : ∀ l : List Char, ' ' ∉ l → splitOnSpace l = [l] := by
  intro l
  induction l with
  | nil => intro _; rfl
  | cons x xs ih =>
    intro hm
    have hx : ¬x = ' ' := fun h => hm (h ▸ List.mem_cons_self x xs)
    have hxs : ' ' ∉ xs := fun h => hm (List.mem_cons_of_mem x h)
    simp only [splitOnSpace, ih hxs]
    rw [if_neg hx]

theorem splitOnSpace_two (d c : List Char) (hd : ' ' ∉ d) (hc : ' ' ∉ c) :
    splitOnSpace (d ++ ' ' :: c) = [d, c] := by
  induction d with
  | nil => simp [splitOnSpace, splitOnSpace_no_space c hc]
  | cons x xs ih =>
    have hx : ¬x = ' ' := fun h => hd (h ▸ List.mem_cons_self x xs)
    have hxs : ' ' ∉ xs := fun h => hd (List.mem_cons_of_mem x h)
    simp only [List.cons_append, splitOnSpace, List.append_eq, ih hxs]
    rw [if_neg hx]

theorem viewSplit_wellformed (d c : String) (hd : ' ' ∉ d.toList) (hc : ' ' ∉ c.toList) :
    viewSplit (d ++ " " ++ c) = [d, c] := by
  simp only [viewSplit]
  have hdata : (d ++ " " ++ c).toList = d.data ++ ' ' :: c.data := by
    show (d ++ " " ++ c).data = _
    rw [string_data_append, string_data_append]
    simp
  rw [hdata, splitOnSpace_two d.data c.data hd hc]
  simp [asString_data_self]

theorem parseClientViews_error_iff : ∀ kvs : List (String × String),
    (∃ e, parseClientViews kvs = Except.error e) ↔
      ∃ kv ∈ kvs, isViewKey kv.1 = true ∧ (viewSplit kv.2).length ≠ 2 := by
  intro kvs
  induction kvs with
  | nil => simp [parseClientViews]
  | cons kv rest ih =>
    obtain ⟨k, v⟩ := kv
    by_cases hk : isViewKey k = true
    · rcases hsp : viewSplit v with _ | ⟨d, tl⟩
      · simp [parseClientViews, hk, hsp]
      · rcases tl with _ | ⟨c, tl2⟩
        · simp [parseClientViews, hk, hsp]
        · rcases tl2 with _ | ⟨e3, tl3⟩
          · rcases hr : parseClientViews rest with e | ms
            · simp only [parseClientViews, hk, if_pos rfl, hsp, hr]
              constructor
              · intro _
                have : ∃ e, parseClientViews rest = Except.error e := ⟨e, hr⟩
                rcases ih.mp this with ⟨kv', hmem, hkv'⟩
                exact ⟨kv', List.mem_cons_of_mem _ hmem, hkv'⟩
              · intro _
                exact ⟨e, rfl⟩
            · simp only [parseClientViews, hk, if_pos rfl, hsp, hr]
              constructor
              · rintro ⟨e, he⟩
                exact absurd he (by simp)
              · rintro ⟨kv', hmem, hkv'⟩
                rcases List.mem_cons.mp hmem with heq | hmem'
                · rw [heq] at hkv'
                  simp [hsp] at hkv'
                · have : ∃ e, parseClientViews rest = Except.error e := ih.mpr ⟨kv', hmem', hkv'⟩
                  rcases this with ⟨e, he⟩
                  rw [he] at hr
                  exact absurd hr (by simp)
          · simp [parseClientViews, hk, hsp]
    · simp only [parseClientViews, if_neg hk]
      rw [ih]
      constructor
      · rintro ⟨kv', hmem, hkv'⟩
        exact ⟨kv', List.mem_cons_of_mem _ hmem, hkv'⟩
      · rintro ⟨kv', hmem, hkv'⟩
        rcases List.mem_cons.mp hmem with heq | hmem'
        · rw [heq] at hkv'
          exact absurd hkv'.1 hk
        · exact ⟨kv', hmem', hkv'⟩

theorem parseClientViews_ok : ∀ kvs : List (String × String),
    (∀ kv ∈ kvs, isViewKey kv.1 = true → (viewSplit kv.2).length = 2) →
    parseClientViews kvs
      = Except.ok ((kvs.filter (fun kv => isViewKey kv.1)).map
          (fun kv => mappingOfLine kv.2)) := by
  intro kvs
  induction kvs with
  | nil => intro _; rfl
  | cons kv rest ih =>
    intro hwf
    obtain ⟨k, v⟩ := kv
    have hrest : ∀ kv ∈ rest, isViewKey kv.1 = true → (viewSplit kv.2).length = 2 :=
      fun kv hm => hwf kv (List.mem_cons_of_mem _ hm)
    by_cases hk : isViewKey k = true
    · have hlen : (viewSplit v).length = 2 := hwf (k, v) (List.mem_cons_self _ _) hk
      rcases hsp : viewSplit v with _ | ⟨d, tl⟩
      · rw [hsp] at hlen
        simp at hlen
      · rcases tl with _ | ⟨c, tl2⟩
        · rw [hsp] at hlen
          simp at hlen
        · rcases tl2 with _ | ⟨e3, tl3⟩
          · simp only [parseClientViews, hk, if_pos rfl, hsp, ih hrest]
            simp only [List.filter_cons, hk, List.map_cons]
            simp [mappingOfLine, hsp]
          · rw [hsp] at hlen
            simp at hlen
    · simp only [parseClientViews, if_neg hk, ih hrest]
      have hkf : isViewKey k = false := Bool.not_eq_true _ ▸ Bool.eq_false_iff.mpr hk
      simp [List.filter_cons, hkf]

/-- C8: fetching a workspace definition fails exactly when some `View*`
line does not split into exactly two space-separated tokens; a well-formed
line `"<depotPath> <clientPath>"` splits into those two components and
yields the corresponding mapping, and under full well-formedness the parse
returns exactly the mapping per view line. -/
theorem view_parse_characterisation :
    (∀ kvs : List (String × String),
      (∃ e, parseClientViews kvs = Except.error e) ↔
        ∃ kv ∈ kvs, isViewKey kv.1 = true ∧ (viewSplit kv.2).length ≠ 2)
    ∧ (∀ d c : String, ' ' ∉ d.toList → ' ' ∉ c.toList →
        viewSplit (d ++ " " ++ c) = [d, c]
          ∧ mappingOfLine (d ++ " " ++ c) = ⟨d, c⟩)
    ∧ (∀ kvs : List (String × String),
        (∀ kv ∈ kvs, isViewKey kv.1 = true → (viewSplit kv.2).length = 2) →
        parseClientViews kvs
          = Except.ok ((kvs.filter (fun kv => isViewKey kv.1)).map
              (fun kv => mappingOfLine kv.2))) := by
  refine ⟨parseClientViews_error_iff, ?_, parseClientViews_ok⟩
  intro d c hd hc
  have hsp := viewSplit_wellformed d c hd hc
  exact ⟨hsp, by simp [mappingOfLine, hsp]⟩

/-- C8 witness: a record with two well-formed view lines and one non-view
key parses to exactly the two mappings; a malformed line is an error. -/
theorem view_parse_characterisation_witness :
    parseClientViews
        [("View0", "//depot/a //T/a"), ("Host", "h1"), ("View1", "//depot/b //T/b")]
      = Except.ok [⟨"//depot/a", "//T/a"⟩, ⟨"//depot/b", "//T/b"⟩]
    ∧ (∃ e, parseClientViews [("View0", "//depot/a//T/a")] = Except.error e) :=
  ⟨(view_parse_characterisation.2.2 _ (by decide)).trans (by rfl),
   view_parse_characterisation.1 _ |>.mpr ⟨("View0", "//depot/a//T/a"), by decide, by decide⟩⟩

/-! ### Association-map lemmas (drift detection) -/

/-- The keys of an association map. -/
def keysOf (m : List (String × String)) : List String :=
  m.map Prod.fst

theorem mem_keysOf_assocSet (m : List (String × String)) (k v a : String) :
    a ∈ keysOf (assocSet m k v) ↔ a ∈ keysOf m ∨ a = k := by
  induction m with
  | nil => simp [assocSet, keysOf]
  | cons kv rest ih =>
    obtain ⟨k', v'⟩ := kv
    by_cases h : k' = k
    · simp only [assocSet, h, if_true, eq_self_iff_true, keysOf, List.map_cons,
        List.mem_cons] at *
      tauto
    · simp only [keysOf] at ih ⊢
      simp only [assocSet, if_neg h, List.map_cons, List.mem_cons]
      rw [ih]
      tauto

theorem keysNodup_assocSet (m : List (String × String)) (k v : String)
    (h : (keysOf m).Nodup) : (keysOf (assocSet m k v)).Nodup := by
  induction m with
  | nil => simp [assocSet, keysOf]
  | cons kv rest ih =>
    obtain ⟨k', v'⟩ := kv
    simp only [keysOf, List.map_cons, List.nodup_cons] at h
    by_cases hk : k' = k
    · subst hk
      simp only [assocSet, if_true, eq_self_iff_true, keysOf, List.map_cons,
        List.nodup_cons]
      exact ⟨h.1, h.2⟩
    · simp only [assocSet, if_neg hk, keysOf, List.map_cons, List.nodup_cons]
      refine ⟨?_, ih h.2⟩
      intro hmem
      rcases (mem_keysOf_assocSet rest k v k').mp hmem with h1 | h1
      · exact h.1 h1
      · exact hk h1

theorem assocGet_eq_none_of_not_mem (m : List (String × String)) (k : String)
    (h : k ∉ keysOf m) : assocGet m k = none := by
  induction m with
  | nil => rfl
  | cons kv rest ih =>
    obtain ⟨k', v'⟩ := kv
    simp only [keysOf, List.map_cons, List.mem_cons] at h
    push_neg at h
    have hne : ¬k' = k := fun he => h.1 he.symm
    simp only [assocGet, if_neg hne]
    exact ih (by simpa [keysOf] using h.2)

theorem assocGet_assocErase (m : List (String × String)) (k k' : String)
    (h : (keysOf m).Nodup) :
    assocGet (assocErase m k) k' = if k' = k then none else assocGet m k' := by
  induction m with
  | nil => simp [assocErase, assocGet]
  | cons kv rest ih =>
    obtain ⟨a, b⟩ := kv
    simp only [keysOf, List.map_cons, List.nodup_cons] at h
    by_cases ha : a = k
    · subst ha
      simp only [assocErase, if_true, eq_self_iff_true]
      by_cases hk' : k' = a
      · subst hk'
        rw [if_pos rfl]
        exact assocGet_eq_none_of_not_mem rest k' h.1
      · rw [if_neg hk']
        have hak : ¬a = k' := fun he => hk' he.symm
        simp only [assocGet, if_neg hak]
    · simp only [assocErase, if_neg ha]
      by_cases hk' : k' = k
      · subst hk'
        rw [if_pos rfl]
        have hak : ¬a = k' := ha
        simp only [assocGet, if_neg hak]
        rw [ih h.2, if_pos rfl]
      · rw [if_neg hk']
        by_cases hak : a = k'
        · simp only [assocGet, if_pos hak]
        · simp only [assocGet, if_neg hak]
          rw [ih h.2, if_neg hk']

theorem mem_keysOf_assocErase (m : List (String × String)) (k a : String)
    (h : a ∈ keysOf (assocErase m k)) : a ∈ keysOf m := by
  induction m with
  | nil => simp [assocErase, keysOf] at h
  | cons kv rest ih =>
    obtain ⟨k', v'⟩ := kv
    by_cases hk : k' = k
    · subst hk
      simp only [assocErase, if_true, eq_self_iff_true] at h
      simp only [keysOf, List.map_cons, List.mem_cons]
      exact Or.inr h
    · simp only [assocErase, if_neg hk, keysOf, List.map_cons, List.mem_cons] at h ⊢
      rcases h with h | h
      · exact Or.inl h
      · exact Or.inr (ih h)

theorem keysNodup_assocErase (m : List (String × String)) (k : String)
    (h : (keysOf m).Nodup) : (keysOf (assocErase m k)).Nodup := by
  induction m with
  | nil => simp [assocErase, keysOf]
  | cons kv rest ih =>
    obtain ⟨k', v'⟩ := kv
    simp only [keysOf, List.map_cons, List.nodup_cons] at h
    by_cases hk : k' = k
    · subst hk
      simpa only [assocErase, if_true, eq_self_iff_true] using h.2
    · simp only [assocErase, if_neg hk, keysOf, List.map_cons, List.nodup_cons]
      exact ⟨fun hm => h.1 (mem_keysOf_assocErase rest k k' hm), ih h.2⟩

theorem mem_assocErase (m : List (String × String)) (k : String)
    (kv : String × String) (h : (keysOf m).Nodup) :
    kv ∈ assocErase m k ↔ kv ∈ m ∧ kv.1 ≠ k := by
  induction m with
  | nil => simp [assocErase]
  | cons hd rest ih =>
    obtain ⟨a, b⟩ := hd
    simp only [keysOf, List.map_cons, List.nodup_cons] at h
    by_cases ha : a = k
    · subst ha
      simp only [assocErase, if_true, eq_self_iff_true, List.mem_cons]
      constructor
      · intro hm
        refine ⟨Or.inr hm, ?_⟩
        intro hk
        exact h.1 (hk ▸ List.mem_map_of_mem Prod.fst hm)
      · rintro ⟨hm | hm, hne⟩
        · exact absurd (congrArg Prod.fst hm) hne
        · exact hm
    · simp only [assocErase, if_neg ha, List.mem_cons, ih h.2]
      constructor
      · rintro (he | ⟨hm, hne⟩)
        · refine ⟨Or.inl he, ?_⟩
          intro hk
          exact ha ((congrArg Prod.fst he).symm.trans hk)
        · exact ⟨Or.inr hm, hne⟩
      · rintro ⟨he | hm, hne⟩
        · exact Or.inl he
        · exact Or.inr ⟨hm, hne⟩

theorem keysNodup_buildTemplateMap (tname cname : String)
    (tpl : List PerforceMapping) :
    (keysOf (buildTemplateMap tname cname tpl)).Nodup := by
  have hgen : ∀ (l : List PerforceMapping) (m : List (String × String)),
      (keysOf m).Nodup →
      (keysOf (l.foldl
        (fun m mp => assocSet m mp.depot (substituteClientPath tname cname mp.client)) m)).Nodup := by
    intro l
    induction l with
    | nil => intro m hm; exact hm
    | cons mp rest ih =>
      intro m hm
      exact ih _ (keysNodup_assocSet m mp.depot _ hm)
  exact hgen tpl [] (by simp [keysOf])

theorem checkExisting_fst (exv : List PerforceMapping) :
    ∀ m : List (String × String), (keysOf m).Nodup →
      (exv.map PerforceMapping.depot).Nodup →
      ((checkExisting m exv).1 = true ↔
        ∃ mp ∈ exv, assocGet m mp.depot = none ∨
          ∃ c, assocGet m mp.depot = some c ∧ c ≠ mp.client) := by
  induction exv with
  | nil => intro m _ _; simp [checkExisting]
  | cons mp rest ih =>
    intro m hm hnd
    simp only [List.map_cons, List.nodup_cons] at hnd
    have hm' : (keysOf (assocErase m mp.depot)).Nodup :=
      keysNodup_assocErase m mp.depot hm
    have ihr := ih (assocErase m mp.depot) hm' hnd.2
    have htrans : ∀ mp' ∈ rest,
        assocGet (assocErase m mp.depot) mp'.depot = assocGet m mp'.depot := by
      intro mp' hmem
      rw [assocGet_assocErase m mp.depot mp'.depot hm]
      have hne : ¬mp'.depot = mp.depot := by
        intro he
        exact hnd.1 (he ▸ List.mem_map_of_mem PerforceMapping.depot hmem)
      rw [if_neg hne]
    simp only [checkExisting, Bool.or_eq_true]
    constructor
    · rintro (hbad | hr)
      · refine ⟨mp, List.mem_cons_self _ _, ?_⟩
        rcases hg : assocGet m mp.depot with _ | c
        · exact Or.inl rfl
        · rw [hg] at hbad
          simp only [decide_eq_true_eq] at hbad
          exact Or.inr ⟨c, rfl, hbad⟩
      · rcases ihr.mp hr with ⟨mp', hmem, hcond⟩
        refine ⟨mp', List.mem_cons_of_mem _ hmem, ?_⟩
        rwa [htrans mp' hmem] at hcond
    · rintro ⟨mp', hmem, hcond⟩
      rcases List.mem_cons.mp hmem with he | hmem'
      · subst he
        left
        rcases hcond with hnone | ⟨c, hc, hne⟩
        · rw [hnone]
        · rw [hc]
          simpa [decide_eq_true_eq] using hne
      · right
        refine ihr.mpr ⟨mp', hmem', ?_⟩
        rwa [htrans mp' hmem']

theorem checkExisting_snd_mem (exv : List PerforceMapping) :
    ∀ m : List (String × String), (keysOf m).Nodup →
      ∀ kv, kv ∈ (checkExisting m exv).2 ↔
        kv ∈ m ∧ ∀ mp ∈ exv, kv.1 ≠ mp.depot := by
  induction exv with
  | nil => intro m _ kv; simp [checkExisting]
  | cons mp rest ih =>
    intro m hm kv
    have hm' := keysNodup_assocErase m mp.depot hm
    simp only [checkExisting]
    rw [ih (assocErase m mp.depot) hm' kv,
      mem_assocErase m mp.depot kv hm]
    constructor
    · rintro ⟨⟨h1, h2⟩, h3⟩
      refine ⟨h1, ?_⟩
      intro mp' hmem
      rcases List.mem_cons.mp hmem with he | hmem'
      · exact he ▸ h2
      · exact h3 mp' hmem'
    · rintro ⟨h1, h2⟩
      exact ⟨⟨h1, h2 mp (List.mem_cons_self _ _)⟩,
        fun mp' hmem' => h2 mp' (List.mem_cons_of_mem _ hmem')⟩

/-- The `rebuildClient` flag of the source coincides with the
specification's drift conditions whenever the existing view has unique
depot keys (the data-model invariant). -/
theorem rebuildFlag_iff_driftConditions (tplView : List PerforceMapping)
    (ex : PerforceClient) (tname cname hostname rootPath : String)
    (hnd : (ex.view.map PerforceMapping.depot).Nodup) :
    (rebuildFlag tplView ex tname cname hostname rootPath = true ↔
      driftConditions tplView ex tname cname hostname rootPath) := by
  have hkm := keysNodup_buildTemplateMap tname cname tplView
  have hflag := checkExisting_fst ex.view (buildTemplateMap tname cname tplView) hkm hnd
  have hleft : (!(checkExisting (buildTemplateMap tname cname tplView) ex.view).2.isEmpty)
      = true ↔
      ∃ kv ∈ buildTemplateMap tname cname tplView,
        kv.1 ∉ ex.view.map PerforceMapping.depot := by
    rw [Bool.not_eq_true', List.isEmpty_eq_false_iff_exists_mem]
    constructor
    · rintro ⟨kv, hkv⟩
      rw [checkExisting_snd_mem ex.view _ hkm kv] at hkv
      refine ⟨kv, hkv.1, ?_⟩
      intro hmem
      rcases List.mem_map.mp hmem with ⟨mp, hmp, he⟩
      exact hkv.2 mp hmp he.symm
    · rintro ⟨kv, h1, h2⟩
      refine ⟨kv, ?_⟩
      rw [checkExisting_snd_mem ex.view _ hkm kv]
      refine ⟨h1, ?_⟩
      intro mp hmp he
      exact h2 (List.mem_map.mpr ⟨mp, hmp, he.symm⟩)
  simp only [rebuildFlag, driftConditions, Bool.or_eq_true, decide_eq_true_eq]
  rw [hflag, hleft]
  constructor
  · rintro (((⟨mp, hmem, hc⟩ | h) | h) | h)
    · rcases hc with hc | hc
      · exact Or.inl ⟨mp, hmem, hc⟩
      · exact Or.inr (Or.inl ⟨mp, hmem, hc⟩)
    · exact Or.inr (Or.inr (Or.inl h))
    · exact Or.inr (Or.inr (Or.inr (Or.inl h)))
    · exact Or.inr (Or.inr (Or.inr (Or.inr h)))
  · rintro (⟨mp, hmem, hc⟩ | ⟨mp, hmem, hc⟩ | h | h | h)
    · exact Or.inl (Or.inl (Or.inl ⟨mp, hmem, Or.inl hc⟩))
    · exact Or.inl (Or.inl (Or.inl ⟨mp, hmem, Or.inr hc⟩))
    · exact Or.inl (Or.inl (Or.inr h))
    · exact Or.inl (Or.inr h)
    · exact Or.inr h

/-! ### Run-shape lemmas for `getSource` -/

theorem getSource_login_fail (s : PerforceSettings) (w : World)
    (hl : w.loginOk = false) :
    getSource s w =
      ([], Except.error "Workflow must login to perforce before running checkout") := by
  simp [getSource, hl]

theorem getSource_owner_abort (s : PerforceSettings) (w : World) (ex : PerforceClient)
    (hl : w.loginOk = true) (hex : w.existing = some ex)
    (h1 : ex.owner ≠ "") (h2 : ex.owner ≠ s.authToken) :
    getSource s w =
      ([], Except.error
        ("Client owner does not match, aborting. " ++ ex.owner ++ " != " ++ s.authToken)) := by
  simp only [getSource, hl, hex, reconcileEvents]
  rw [if_neg (by simp), if_pos ⟨h1, h2⟩]

theorem getSource_existing_rebuild (s : PerforceSettings) (w : World)
    (ex : PerforceClient)
    (hl : w.loginOk = true) (hex : w.existing = some ex)
    (hown : ¬(ex.owner ≠ "" ∧ ex.owner ≠ s.authToken))
    (hrb : rebuildFlag w.template.view ex s.clientTemplate
      (resolveClientName s.useClientTemplate s.clientTemplate w.hostname)
      w.hostname s.repositoryPath = true) :
    getSource s w =
      (Event.editClient (rebuiltClient ex w.template.view s.clientTemplate
          (resolveClientName s.useClientTemplate s.clientTemplate w.hostname)
          w.hostname s.repositoryPath)
        :: (purgeEvents (resolveClientName s.useClientTemplate s.clientTemplate w.hostname)
              s.repositoryPath
            ++ tailEvents (resolveClientName s.useClientTemplate s.clientTemplate w.hostname)
              s.ref),
       Except.ok s.ref) := by
  simp only [getSource, hl, hex, reconcileEvents]
  rw [if_neg (by simp), if_neg hown, if_pos hrb]

theorem getSource_existing_norebuild (s : PerforceSettings) (w : World)
    (ex : PerforceClient)
    (hl : w.loginOk = true) (hex : w.existing = some ex)
    (hown : ¬(ex.owner ≠ "" ∧ ex.owner ≠ s.authToken))
    (hrb : rebuildFlag w.template.view ex s.clientTemplate
      (resolveClientName s.useClientTemplate s.clientTemplate w.hostname)
      w.hostname s.repositoryPath = false) :
    getSource s w =
      (tailEvents (resolveClientName s.useClientTemplate s.clientTemplate w.hostname) s.ref,
       Except.ok s.ref) := by
  simp only [getSource, hl, hex, reconcileEvents]
  rw [if_neg (by simp), if_neg hown, if_neg (by simp [hrb])]

theorem getSource_new (s : PerforceSettings) (w : World)
    (hl : w.loginOk = true) (hex : w.existing = none) :
    getSource s w =
      (Event.editClient (newClient w.template s.clientTemplate
          (resolveClientName s.useClientTemplate s.clientTemplate w.hostname)
          w.hostname s.repositoryPath)
        :: tailEvents (resolveClientName s.useClientTemplate s.clientTemplate w.hostname)
            s.ref,
       Except.ok s.ref) := by
  simp only [getSource, hl, hex, reconcileEvents]
  rw [if_neg (by simp)]

/-! ### Substring lemmas for failure-detail claims -/

theorem isPrefixOf_append_self (pat l : List Char) :
    pat.isPrefixOf (pat ++ l) = true := by
  induction pat with
  | nil => simp [List.isPrefixOf]
  | cons p ps ih => simp [List.isPrefixOf, ih]

theorem hasSubAux_append (pre pat post : List Char) :
    hasSubAux pat (pre ++ pat ++ post) = true := by
  induction pre with
  | nil =>
    cases pat with
    | nil =>
      cases post with
      | nil => rfl
      | cons c r => simp [hasSubAux, List.isPrefixOf]
    | cons p ps => simp [hasSubAux, isPrefixOf_append_self]
  | cons x xs ih =>
    simp only [List.cons_append, hasSubAux, Bool.or_eq_true]
    exact Or.inr ih

theorem containsSubstring_middle (a b c : String) :
    containsSubstring (a ++ b ++ c) b = true := by
  show hasSubAux b.data ((a ++ b ++ c).data) = true
  rw [string_data_append, string_data_append]
  exact hasSubAux_append a.data b.data c.data

theorem string_append_assoc (a b c : String) : (a ++ b) ++ c = a ++ (b ++ c) := by
  apply string_eq_of_data
  simp [string_data_append]

theorem string_append_empty (a : String) : a ++ "" = a := by
  apply string_eq_of_data
  simp [string_data_append]

/-- C2 counterexample: in `worldOwnerBlank` the existing definition's owner
(the empty string) differs from the authenticated identity (`"bob"`), yet
the run does not fail before writing — it completes successfully — because
the source's truthiness guard (`existingClient.owner && …`) skips the
ownership check for an empty owner. -/
theorem owner_blank_not_aborted_cex :
    worldOwnerBlank.existing = some { sampleExisting with owner := "" }
    ∧ "" ≠ sampleSettings.authToken
    ∧ (getSource sampleSettings worldOwnerBlank).2 = Except.ok "@123"
    ∧ (getSource sampleSettings worldOwnerBlank).1 ≠ [] := by
  refine ⟨rfl, by decide, by rfl, by decide⟩

/-- C2 (amended): for every existing workspace definition whose owner is
*non-empty* and differs from the authenticated identity, `synchronize`
fails before performing any write (empty trace), and the failure detail
contains both the existing owner name and the authenticated identity. -/
theorem owner_mismatch_aborts (s : PerforceSettings) (w : World) (ex : PerforceClient)
    (hl : w.loginOk = true) (hex : w.existing = some ex)
    (h1 : ex.owner ≠ "") (h2 : ex.owner ≠ s.authToken) :
    (getSource s w).1 = []
    ∧ ∃ msg, (getSource s w).2 = Except.error msg
        ∧ containsSubstring msg ex.owner = true
        ∧ containsSubstring msg s.authToken = true := by
  rw [getSource_owner_abort s w ex hl hex h1 h2]
  refine ⟨rfl, _, rfl, ?_, ?_⟩
  · rw [string_append_assoc ("Client owner does not match, aborting. " ++ ex.owner)
      " != " s.authToken]
    exact containsSubstring_middle "Client owner does not match, aborting. " ex.owner
      (" != " ++ s.authToken)
  · have h := containsSubstring_middle
      ("Client owner does not match, aborting. " ++ ex.owner ++ " != ") s.authToken ""
    rwa [string_append_empty] at h

/-- C2 witness: owner `alice` against identity `bob` aborts with an empty
trace and both names in the failure detail. -/
theorem owner_mismatch_aborts_witness :
    (getSource sampleSettings worldOwnerAlice).1 = []
    ∧ ∃ msg, (getSource sampleSettings worldOwnerAlice).2 = Except.error msg
        ∧ containsSubstring msg "alice" = true
        ∧ containsSubstring msg "bob" = true :=
  owner_mismatch_aborts sampleSettings worldOwnerAlice
    { sampleExisting with owner := "alice" } rfl rfl (by decide) (by decide)

/-- C3: with an existing definition (login succeeded, ownership check
passed, unique depot keys — the data-model invariant), a rebuild write-back
of the definition appears in the run iff one of the specified drift
conditions holds; in particular a driftless run performs no remote write of
the definition at all, so a repeated run with an unchanged template issues
zero `editClient` commands in its reconciliation phase. -/
theorem rebuild_iff_drift (s : PerforceSettings) (w : World) (ex : PerforceClient)
    (hl : w.loginOk = true) (hex : w.existing = some ex)
    (hown : ex.owner = "" ∨ ex.owner = s.authToken)
    (hnd : (ex.view.map PerforceMapping.depot).Nodup) :
    ((∃ c, Event.editClient c ∈ (getSource s w).1) ↔
      driftConditions w.template.view ex s.clientTemplate
        (resolveClientName s.useClientTemplate s.clientTemplate w.hostname)
        w.hostname s.repositoryPath) := by
  have hno : ¬(ex.owner ≠ "" ∧ ex.owner ≠ s.authToken) := by
    rcases hown with h0 | h0 <;> simp [h0]
  rw [← rebuildFlag_iff_driftConditions w.template.view ex s.clientTemplate
    (resolveClientName s.useClientTemplate s.clientTemplate w.hostname)
    w.hostname s.repositoryPath hnd]
  cases hrb : rebuildFlag w.template.view ex s.clientTemplate
      (resolveClientName s.useClientTemplate s.clientTemplate w.hostname)
      w.hostname s.repositoryPath with
  | false =>
    rw [getSource_existing_norebuild s w ex hl hex hno hrb]
    simp [tailEvents]
  | true =>
    rw [getSource_existing_rebuild s w ex hl hex hno hrb]
    simp [purgeEvents, tailEvents]

/-- C3 witness: a host mismatch on the existing definition is drift. -/
theorem rebuild_iff_drift_witness :
    driftConditions worldDrift.template.view { sampleExisting with host := "other" }
      sampleSettings.clientTemplate
      (resolveClientName sampleSettings.useClientTemplate sampleSettings.clientTemplate
        worldDrift.hostname)
      worldDrift.hostname sampleSettings.repositoryPath :=
  (rebuild_iff_drift sampleSettings worldDrift { sampleExisting with host := "other" }
      rfl rfl (Or.inr rfl) (by decide)).mp
    ⟨rebuiltClient { sampleExisting with host := "other" } worldDrift.template.view
        sampleSettings.clientTemplate
        (resolveClientName sampleSettings.useClientTemplate sampleSettings.clientTemplate
          worldDrift.hostname)
        worldDrift.hostname sampleSettings.repositoryPath,
      by decide⟩

/-- C4: when drift triggers a rebuild, the remote sync-to-none command
appears in the trace strictly before the removal of the root directory,
which itself precedes its recreation; when an existing definition shows no
drift, neither the sync-to-none command nor the directory wipe occurs. -/
theorem purge_ordering (s : PerforceSettings) (w : World) (ex : PerforceClient)
    (hl : w.loginOk = true) (hex : w.existing = some ex)
    (hown : ex.owner = "" ∨ ex.owner = s.authToken) :
    (rebuildFlag w.template.view ex s.clientTemplate
        (resolveClientName s.useClientTemplate s.clientTemplate w.hostname)
        w.hostname s.repositoryPath = true →
      Event.syncK ("//" ++ resolveClientName s.useClientTemplate s.clientTemplate w.hostname
          ++ "/...#none") ∈ (getSource s w).1
      ∧ Event.rmRF s.repositoryPath ∈ (getSource s w).1
      ∧ Event.mkdirP s.repositoryPath ∈ (getSource s w).1
      ∧ idxOf (Event.syncK ("//" ++ resolveClientName s.useClientTemplate s.clientTemplate
            w.hostname ++ "/...#none")) (getSource s w).1
          < idxOf (Event.rmRF s.repositoryPath) (getSource s w).1
      ∧ idxOf (Event.rmRF s.repositoryPath) (getSource s w).1
          < idxOf (Event.mkdirP s.repositoryPath) (getSource s w).1)
    ∧ (rebuildFlag w.template.view ex s.clientTemplate
        (resolveClientName s.useClientTemplate s.clientTemplate w.hostname)
        w.hostname s.repositoryPath = false →
      (∀ sp, Event.syncK sp ∉ (getSource s w).1)
      ∧ (∀ p, Event.rmRF p ∉ (getSource s w).1)
      ∧ (∀ p, Event.mkdirP p ∉ (getSource s w).1)) := by
  have hno : ¬(ex.owner ≠ "" ∧ ex.owner ≠ s.authToken) := by
    rcases hown with h0 | h0 <;> simp [h0]
  constructor
  · intro hrb
    rw [getSource_existing_rebuild s w ex hl hex hno hrb]
    simp [purgeEvents, tailEvents, idxOf]
  · intro hrb
    rw [getSource_existing_norebuild s w ex hl hex hno hrb]
    simp [tailEvents]

/-- C4 witness: ordering of the purge steps in the drifted sample run. -/
theorem purge_ordering_witness :
    idxOf (Event.syncK ("//" ++ resolveClientName sampleSettings.useClientTemplate
        sampleSettings.clientTemplate worldDrift.hostname ++ "/...#none"))
      (getSource sampleSettings worldDrift).1
      < idxOf (Event.rmRF sampleSettings.repositoryPath)
          (getSource sampleSettings worldDrift).1 :=
  (((purge_ordering sampleSettings worldDrift { sampleExisting with host := "other" }
      rfl rfl (Or.inr rfl)).1 (by decide)).2.2.2).1

/-- C9: a rebuild write-back for an existing definition keeps the existing
owner, client name, description, options, submitOptions and lineEnd
unchanged; only host, root and view are overwritten (current host, target
root, namespace-substituted template view). -/
theorem rebuild_frame (s : PerforceSettings) (w : World) (ex c : PerforceClient)
    (hl : w.loginOk = true) (hex : w.existing = some ex)
    (hc : Event.editClient c ∈ (getSource s w).1) :
    c.owner = ex.owner ∧ c.client = ex.client ∧ c.description = ex.description
    ∧ c.options = ex.options ∧ c.submitOptions = ex.submitOptions
    ∧ c.lineEnd = ex.lineEnd
    ∧ c.host = w.hostname ∧ c.root = s.repositoryPath
    ∧ c.view = substitutedView s.clientTemplate
        (resolveClientName s.useClientTemplate s.clientTemplate w.hostname)
        w.template.view := by
  by_cases hok : ex.owner ≠ "" ∧ ex.owner ≠ s.authToken
  · rw [getSource_owner_abort s w ex hl hex hok.1 hok.2] at hc
    simp at hc
  · cases hrb : rebuildFlag w.template.view ex s.clientTemplate
        (resolveClientName s.useClientTemplate s.clientTemplate w.hostname)
        w.hostname s.repositoryPath with
    | false =>
      rw [getSource_existing_norebuild s w ex hl hex hok hrb] at hc
      simp [tailEvents] at hc
    | true =>
      rw [getSource_existing_rebuild s w ex hl hex hok hrb] at hc
      simp [purgeEvents, tailEvents] at hc
      subst hc
      exact ⟨rfl, rfl, rfl, rfl, rfl, rfl, rfl, rfl, rfl⟩

/-- C9 witness: the write-back of the drifted sample run keeps owner
`bob`. -/
theorem rebuild_frame_witness :
    (rebuiltClient { sampleExisting with host := "other" } worldDrift.template.view
        sampleSettings.clientTemplate
        (resolveClientName sampleSettings.useClientTemplate sampleSettings.clientTemplate
          worldDrift.hostname)
        worldDrift.hostname sampleSettings.repositoryPath).owner = "bob" :=
  (rebuild_frame sampleSettings worldDrift { sampleExisting with host := "other" }
    (rebuiltClient { sampleExisting with host := "other" } worldDrift.template.view
      sampleSettings.clientTemplate
      (resolveClientName sampleSettings.useClientTemplate sampleSettings.clientTemplate
        worldDrift.hostname)
      worldDrift.hostname sampleSettings.repositoryPath)
    rfl rfl (by decide)).1

/-- C10: every completed run emits as its `commit` output exactly the ref
string from the settings (no resolution to a changelist), and the single
sync command issued is the literal concatenation
`"//" ++ resolvedClientName ++ "/..." ++ ref`. -/
theorem sync_ref_output (s : PerforceSettings) (w : World) (out : String)
    (h : (getSource s w).2 = Except.ok out) :
    out = s.ref
    ∧ Event.setOutput "commit" s.ref ∈ (getSource s w).1
    ∧ (∀ sp, Event.sync sp ∈ (getSource s w).1 ↔
        sp = "//" ++ resolveClientName s.useClientTemplate s.clientTemplate w.hostname
          ++ "/..." ++ s.ref) := by
  cases hl : w.loginOk with
  | false =>
    rw [getSource_login_fail s w hl] at h
    simp at h
  | true =>
    cases hex : w.existing with
    | none =>
      rw [getSource_new s w hl hex] at h ⊢
      simp only [] at h
      refine ⟨(Except.ok.injEq _ _ ▸ h).symm, ?_, ?_⟩
      · simp [tailEvents]
      · intro sp
        simp [tailEvents]
    | some ex =>
      by_cases hok : ex.owner ≠ "" ∧ ex.owner ≠ s.authToken
      · rw [getSource_owner_abort s w ex hl hex hok.1 hok.2] at h
        simp at h
      · cases hrb : rebuildFlag w.template.view ex s.clientTemplate
            (resolveClientName s.useClientTemplate s.clientTemplate w.hostname)
            w.hostname s.repositoryPath with
        | false =>
          rw [getSource_existing_norebuild s w ex hl hex hok hrb] at h ⊢
          refine ⟨(Except.ok.injEq _ _ ▸ h).symm, ?_, ?_⟩
          · simp [tailEvents]
          · intro sp
            simp [tailEvents]
        | true =>
          rw [getSource_existing_rebuild s w ex hl hex hok hrb] at h ⊢
          refine ⟨(Except.ok.injEq _ _ ▸ h).symm, ?_, ?_⟩
          · simp [purgeEvents, tailEvents]
          · intro sp
            simp [purgeEvents, tailEvents]

/-- C10 witness: the fresh-client sample run outputs exactly `@123` and its
sync command is `//T_h1/...@123`. -/
theorem sync_ref_output_witness :
    ("@123" : String) = sampleSettings.ref
    ∧ Event.setOutput "commit" sampleSettings.ref
        ∈ (getSource sampleSettings worldNew).1 :=
  ⟨(sync_ref_output sampleSettings worldNew "@123" rfl).1,
   (sync_ref_output sampleSettings worldNew "@123" rfl).2.1⟩

end PewCheckout
